import Mathlib

/-!
# Verification of the ws_chat relay server core (src/server.ts)

Shallow embedding of the websocket chat relay: the connection registry
(`sockets`), the per-room key maps (`roomClientKeys`), the lifecycle
handlers (`handleOpen`, `handleClose`), the relay protocol handler
(`handleMessage` with `handleUserMessage` and `handleExchange`), and the
upgrade route (`upgradeSocket`).  JavaScript `Map`s are embedded as
insertion-ordered association lists; the platform primitives `atob` and
`JSON.parse` are embedded by their observable behaviour (decoded length /
parse result), and exceptions are made explicit.
-/

namespace WsChat

/-! ## JavaScript `Map` as an insertion-ordered association list -/

/-- JS `Map.get(k)`: value of the first entry with key `k`. -/
def jsGet {β : Type} : List (String × β) → String → Option β
  | [], _ => none
  | p :: rest, k => if p.1 == k then some p.2 else jsGet rest k

/-- JS `Map.set(k, v)`: replace the entry in place if the key is present,
append at the end otherwise (JS `Map` insertion-order semantics). -/
def jsSet {β : Type} : List (String × β) → String → β → List (String × β)
  | [], k, v => [(k, v)]
  | p :: rest, k, v => if p.1 == k then (k, v) :: rest else p :: jsSet rest k v

/-- JS `Map.delete(k)`: remove the entry with key `k`. -/
def jsDelete {β : Type} : List (String × β) → String → List (String × β)
  | [], _ => []
  | p :: rest, k => if p.1 == k then rest else p :: jsDelete rest k

/-- The keys of an association list have no duplicates (true of every map
the server builds; needed to reason about `jsDelete`). -/
def nodupKeys {β : Type} (m : List (String × β)) : Prop :=
  (m.map Prod.fst).Nodup

/-! ## Data model

`WsData` is the per-connection context attached at upgrade time
(`{ uuid, username, room }` in `types.d.ts`).  `Json` models the values
`JSON.parse` can produce; an inbound frame is modelled by its parse
result (`none` = `JSON.parse` threw). -/

structure WsData where
  uuid : String
  username : String
  room : String
deriving DecidableEq, Repr

inductive Json where
  | null : Json
  | bool : Bool → Json
  | num : Int → Json
  | str : String → Json
  | arr : List Json → Json
  | obj : List (String × Json) → Json

/-- Outbound wire messages (the `MessageData` union in `types.d.ts`),
restricted to the payloads the server actually sends. -/
inductive MessageData where
  | announcement : String → MessageData
  | keyinit : List (String × String) → MessageData
  | exchange : String → String → MessageData
  | message : (sender : String) → (uuid : String) → (content : String) → (iv : String) → MessageData
deriving DecidableEq, Repr

/-- Observable effects of a handler: `server.publish(room, …)`,
`ws.send(…)` to the socket registered under a uuid, `ws.terminate()`,
and the `logError` call in `wrapInErrorHandler`'s catch branch. -/
inductive Output where
  | publish : String → MessageData → Output
  | send : String → MessageData → Output
  | terminate : String → Output
  | logError : Output
deriving DecidableEq, Repr

/-- The module-level mutable registries of `server.ts`: `sockets`
(uuid → connection data), `roomClientKeys` (room → (uuid → public key)),
plus the pub/sub subscriptions maintained by `ws.subscribe` /
`ws.unsubscribe` (pairs (uuid, room)). -/
structure ServerState where
  sockets : List (String × WsData)
  roomClientKeys : List (String × List (String × String))
  subscriptions : List (String × String)
deriving DecidableEq, Repr

def initialState : ServerState := ⟨[], [], []⟩

/-! ## Platform primitives -/

def isBase64Char (c : Char) : Bool :=
  ('A' ≤ c && c ≤ 'Z') || ('a' ≤ c && c ≤ 'z') || ('0' ≤ c && c ≤ '9') ||
    c = '+' || c = '/'

def isAsciiWhitespace (c : Char) : Bool :=
  c = ' ' || c = '\t' || c = '\n' || c = '\x0c' || c = '\r'

/-- Decoded byte length of the platform `atob` (WHATWG forgiving-base64):
strip ASCII whitespace, strip up to two trailing `=` when the length is a
multiple of 4, fail (`none`, i.e. `atob` throws) when the remaining
length is ≡ 1 (mod 4) or a character is outside the base64 alphabet;
the decoded length is then `⌊3·n/4⌋` for `n` remaining characters. -/
def atobLength (s : String) : Option Nat :=
  let cs0 := s.data.filter (fun c => !isAsciiWhitespace c)
  let cs := if cs0.length % 4 == 0 then
      match cs0.reverse with
      | '=' :: '=' :: rest => rest.reverse
      | '=' :: rest => rest.reverse
      | _ => cs0
    else cs0
  if cs.length % 4 == 1 then none
  else if cs.all isBase64Char then some (cs.length * 3 / 4)
  else none

/-! ## server.ts functions -/

/-- Source `getMessageLength(encrypted)`: `atob(encrypted).length - 16`.
`none` models the exception `atob` raises on invalid base64. -/
def getMessageLength (encrypted : String) : Option Int :=
  (atobLength encrypted).map (fun n => (n : Int) - 16)

/-- JS property access `j[k]` on a parsed JSON value, when it yields a
string (`typeof j[k] === "string"`).  Arrays and primitives have no such
named property. -/
def strField (j : Json) (k : String) : Option String :=
  match j with
  | .obj fields =>
    match jsGet fields k with
    | some (.str s) => some s
    | _ => none
  | _ => none

/-- JS property access `j[k]` (any value). -/
def anyField (j : Json) (k : String) : Option Json :=
  match j with
  | .obj fields => jsGet fields k
  | _ => none

/-- JS `typeof v === "object" && v !== null` for a parsed JSON value:
true exactly for objects and arrays. -/
def isJsObjectValue : Json → Bool
  | .obj _ => true
  | .arr _ => true
  | _ => false

/-- Source `isMessage(message)`: non-null object whose `content` and `iv`
properties are strings. -/
def isMessage (message : Json) : Bool :=
  (strField message "content").isSome && (strField message "iv").isSome

/-- Source `isMessageData(data)`: non-null object whose `type` property is a
string; `typeField` is that string. -/
def typeField (j : Json) : Option String := strField j "type"

def isMessageData (data : Json) : Bool := (typeField data).isSome

/-- JS `Object.entries(messages)`: the own enumerable properties of the
`messages` value.  Objects yield their fields, arrays their elements
under stringified indices. -/
def entriesOf : Json → List (String × Json)
  | .obj fields => fields
  | .arr elems => elems.enum.map (fun p => (toString p.1, p.2))
  | _ => []

/-- Source `handleOpen(ws)`: subscribe to the room, register the socket, lazily
create the room's key map, broadcast the join announcement, and unicast
`keyinit` with the room's current key map (`Object.fromEntries`). -/
def handleOpen (st : ServerState) (d : WsData) : ServerState × List Output :=
  let subs := if (d.uuid, d.room) ∈ st.subscriptions then st.subscriptions
    else st.subscriptions ++ [(d.uuid, d.room)]
  let sockets := jsSet st.sockets d.uuid d
  let rck := if (jsGet st.roomClientKeys d.room).isSome then st.roomClientKeys
    else jsSet st.roomClientKeys d.room []
  (⟨sockets, rck, subs⟩,
   [Output.publish d.room (MessageData.announcement (d.username ++ " has joined the room!")),
    Output.send d.uuid (MessageData.keyinit ((jsGet rck d.room).getD []))])

/-- Source `handleClose(ws)`: unsubscribe, deregister the socket, delete the
closer's key from its room's key map, delete the room entry when the key
map became empty, and broadcast the leave announcement. -/
def handleClose (st : ServerState) (d : WsData) : ServerState × List Output :=
  let subs := st.subscriptions.filter (fun p => p ≠ (d.uuid, d.room))
  let sockets := jsDelete st.sockets d.uuid
  let rck := match jsGet st.roomClientKeys d.room with
    | none => st.roomClientKeys
    | some keys =>
      let keys' := jsDelete keys d.uuid
      if keys'.isEmpty then jsDelete st.roomClientKeys d.room
      else jsSet st.roomClientKeys d.room keys'
  (⟨sockets, rck, subs⟩,
   [Output.publish d.room (MessageData.announcement (d.username ++ " has left the room!"))])

/-- The entry loop of `handleUserMessage(data, messages)`, over
`Object.entries(messages)`.  (`typeof targetUuid !== "string"` is
vacuous: `Object.entries` keys are strings.)  The `Bool` is true when
`getMessageLength` threw on invalid base64, aborting the loop — the
exception propagates out of `handleUserMessage`. -/
def handleUserMessage (sockets : List (String × WsData)) (d : WsData) :
    List (String × Json) → List Output × Bool
  | [] => ([], false)
  | (targetUuid, message) :: rest =>
    if isMessage message then
      match jsGet sockets targetUuid with
      | none => handleUserMessage sockets d rest
      | some _ =>
        let content := (strField message "content").getD ""
        let iv := (strField message "iv").getD ""
        match getMessageLength content with
        | none => ([], true)
        | some len =>
          if len = 0 ∨ 256 < len then handleUserMessage sockets d rest
          else
            let r := handleUserMessage sockets d rest
            (Output.send targetUuid (MessageData.message d.username d.uuid content iv) :: r.1,
             r.2)
    else handleUserMessage sockets d rest

/-- Source `handleExchange(data, key)`: record the sender's key in its room's
key map unless the room has no key map or the sender already registered
one; on success broadcast an `exchange` event to the room. -/
def handleExchange (st : ServerState) (d : WsData) (key : String) :
    ServerState × List Output :=
  match jsGet st.roomClientKeys d.room with
  | none => (st, [])
  | some keys =>
    if (jsGet keys d.uuid).isSome then (st, [])
    else
      ({ st with roomClientKeys := jsSet st.roomClientKeys d.room (jsSet keys d.uuid key) },
       [Output.publish d.room (MessageData.exchange d.uuid key)])

/-- Source `handleMessage(ws, received)` on the parse result of `received`
(`none` = `JSON.parse` threw inside `safeCall`).  The `Bool` is true when
the handler itself threw (invalid base64 inside `handleUserMessage`);
`wrapInErrorHandler` catches that and logs. -/
def handleMessage (st : ServerState) (d : WsData) (frame : Option Json) :
    ServerState × List Output × Bool :=
  match frame with
  | none => (st, [Output.terminate d.uuid], false)
  | some data =>
    match typeField data with
    | none => (st, [Output.terminate d.uuid], false)
    | some ty =>
      if ty = "send_message" then
        match anyField data "messages" with
        | some msgs =>
          if isJsObjectValue msgs then
            (st, handleUserMessage st.sockets d (entriesOf msgs))
          else (st, [], false)
        | none => (st, [], false)
      else if ty = "send_exchange" then
        match anyField data "key" with
        | some (Json.str k) => ((handleExchange st d k).1, (handleExchange st d k).2, false)
        | _ => (st, [], false)
      else (st, [Output.terminate d.uuid], false)

/-! ## Event semantics

The transport (Bun) delivers `open`, `close`, and `message` callbacks,
each wrapped in `wrapInErrorHandler`, which logs a caught exception and
returns normally. -/

inductive Event where
  | wsOpen : WsData → Event
  | wsClose : WsData → Event
  | wsMessage : WsData → Option Json → Event

def step (st : ServerState) : Event → ServerState × List Output
  | .wsOpen d => handleOpen st d
  | .wsClose d => handleClose st d
  | .wsMessage d frame =>
    let r := handleMessage st d frame
    (r.1, if r.2.2 then r.2.1 ++ [Output.logError] else r.2.1)

def run (st : ServerState) : List Event → ServerState
  | [] => st
  | e :: es => run (step st e).1 es

/-- Transport guarantees: an `open` carries a freshly generated uuid not
currently registered (`crypto.randomUUID()`), and `close`/`message`
callbacks are only delivered for a connection that is currently open,
i.e. registered in `sockets` with its own data. -/
def validEvent (st : ServerState) : Event → Bool
  | .wsOpen d => jsGet st.sockets d.uuid == none
  | .wsClose d => jsGet st.sockets d.uuid == some d
  | .wsMessage d _ => jsGet st.sockets d.uuid == some d

def validTrace : ServerState → List Event → Bool
  | _, [] => true
  | st, e :: es => validEvent st e && validTrace (step st e).1 es

/-! ## Upgrade route -/

inductive UpgradeResult where
  | reject : Nat → String → UpgradeResult
  | upgraded : WsData → UpgradeResult
deriving DecidableEq, Repr

/-- Source `upgradeSocket(request, searchParams)`: default a missing or empty
`username` to "Anonymous" (JS `||` on the falsy empty string), reject
with 400 when the username exceeds 16 characters or the room is missing,
empty, or exceeds 32 characters; otherwise upgrade with a fresh uuid.
(The transport-level `server.upgrade` failure branch returns 500 without
touching any registry and is outside this model.) -/
def upgradeSocket (usernameParam roomParam : Option String) (uuid : String) :
    UpgradeResult :=
  let username := match usernameParam with
    | none => "Anonymous"
    | some u => if u = "" then "Anonymous" else u
  let roomMissing := match roomParam with
    | none => true
    | some r => r = ""
  if 16 < username.length ∨ roomMissing = true ∨ 32 < (roomParam.getD "").length then
    UpgradeResult.reject 400 "Invalid data sent"
  else
    UpgradeResult.upgraded ⟨uuid, username, roomParam.getD ""⟩

/-! ## Frame constructors (concrete wire shapes used in the theorems) -/

def mkSendMessage (entries : List (String × Json)) : Json :=
  Json.obj [("type", Json.str "send_message"), ("messages", Json.obj entries)]

def mkSendExchange (key : String) : Json :=
  Json.obj [("type", Json.str "send_exchange"), ("key", Json.str key)]

def envelope (content iv : String) : Json :=
  Json.obj [("content", Json.str content), ("iv", Json.str iv)]

/-- The key map the server holds for room `r` (empty when the room has
no entry) — what `keyinit` reports on join. -/
def roomKeys (st : ServerState) (r : String) : List (String × String) :=
  (jsGet st.roomClientKeys r).getD []

/-! ## Theorems -/

/-! ### Association-list lemmas -/

theorem jsGet_jsSet_self {β : Type} (m : List (String × β)) (k : String) (v : β) :
    jsGet (jsSet m k v) k = some v := by
  induction m with
  | nil => simp [jsSet, jsGet]
  | cons p rest ih =>
    by_cases h : p.1 = k
    · simp [jsSet, jsGet, h]
    · simp [jsSet, jsGet, h, ih]

theorem jsGet_jsSet_ne {β : Type} (m : List (String × β)) (k u : String) (v : β)
    (h : u ≠ k) : jsGet (jsSet m k v) u = jsGet m u := by
  have hne : k ≠ u := Ne.symm h
  induction m with
  | nil => simp [jsSet, jsGet, hne]
  | cons p rest ih =>
    by_cases hp : p.1 = k
    · simp [jsSet, jsGet, hp, hne]
    · simp [jsSet, jsGet, hp, ih]

theorem jsGet_jsDelete_ne {β : Type} (m : List (String × β)) (k u : String)
    (h : u ≠ k) : jsGet (jsDelete m k) u = jsGet m u := by
  have hne : k ≠ u := Ne.symm h
  induction m with
  | nil => simp [jsDelete]
  | cons p rest ih =>
    by_cases hp : p.1 = k
    · simp [jsDelete, jsGet, hp, hne]
    · simp [jsDelete, jsGet, hp, ih]

theorem jsGet_eq_none_of_not_mem_keys {β : Type} (m : List (String × β)) (k : String)
    (h : k ∉ m.map Prod.fst) : jsGet m k = none := by
  induction m with
  | nil => simp [jsGet]
  | cons p rest ih =>
    simp only [List.map_cons, List.mem_cons] at h
    push_neg at h
    have : ¬ p.1 = k := fun hh => h.1 hh.symm
    simp [jsGet, this, ih h.2]

theorem jsGet_jsDelete_self {β : Type} (m : List (String × β)) (k : String)
    (h : nodupKeys m) : jsGet (jsDelete m k) k = none := by
  induction m with
  | nil => simp [jsDelete, jsGet]
  | cons p rest ih =>
    simp only [nodupKeys, List.map_cons, List.nodup_cons] at h
    by_cases hp : p.1 = k
    · have : jsDelete (p :: rest) k = rest := by simp [jsDelete, hp]
      rw [this]
      exact jsGet_eq_none_of_not_mem_keys rest k (hp ▸ h.1)
    · simp [jsDelete, jsGet, hp, ih h.2]

theorem jsDelete_sublist {β : Type} (m : List (String × β)) (k : String) :
    (jsDelete m k).Sublist m := by
  induction m with
  | nil => simp [jsDelete]
  | cons p rest ih =>
    by_cases hp : p.1 = k
    · have : jsDelete (p :: rest) k = rest := by simp [jsDelete, hp]
      rw [this]
      exact List.sublist_cons_self p rest
    · have : jsDelete (p :: rest) k = p :: jsDelete rest k := by simp [jsDelete, hp]
      rw [this]
      exact ih.cons₂ p

theorem nodupKeys_jsDelete {β : Type} (m : List (String × β)) (k : String)
    (h : nodupKeys m) : nodupKeys (jsDelete m k) :=
  ((jsDelete_sublist m k).map Prod.fst).nodup h

theorem mem_keys_jsSet {β : Type} (m : List (String × β)) (k u : String) (v : β)
    (h : u ∈ (jsSet m k v).map Prod.fst) : u = k ∨ u ∈ m.map Prod.fst := by
  induction m with
  | nil => simpa [jsSet] using h
  | cons p rest ih =>
    by_cases hp : p.1 = k
    · simp only [jsSet, hp, beq_self_eq_true, if_true, List.map_cons, List.mem_cons] at h
      rcases h with h | h
      · exact Or.inl h
      · exact Or.inr (by simp [h])
    · simp only [jsSet, beq_iff_eq, hp, if_false, List.map_cons, List.mem_cons] at h
      rcases h with h | h
      · exact Or.inr (by simp [h])
      · rcases ih h with h' | h'
        · exact Or.inl h'
        · exact Or.inr (by simp [h'])

theorem nodupKeys_jsSet {β : Type} (m : List (String × β)) (k : String) (v : β)
    (h : nodupKeys m) : nodupKeys (jsSet m k v) := by
  induction m with
  | nil => simp [jsSet, nodupKeys]
  | cons p rest ih =>
    simp only [nodupKeys, List.map_cons, List.nodup_cons] at h
    by_cases hp : p.1 = k
    · simp only [jsSet, hp, beq_self_eq_true, if_true]
      simp only [nodupKeys, List.map_cons, List.nodup_cons]
      exact ⟨hp ▸ h.1, h.2⟩
    · simp only [jsSet, beq_iff_eq, hp, if_false]
      simp only [nodupKeys, List.map_cons, List.nodup_cons]
      refine ⟨fun hmem => ?_, ih h.2⟩
      rcases mem_keys_jsSet rest k p.1 v hmem with h' | h'
      · exact hp h'
      · exact h.1 h'

theorem jsGet_isSome_of_mem {β : Type} (m : List (String × β)) (x : String × β)
    (h : x ∈ m) : (jsGet m x.1).isSome := by
  induction m with
  | nil => simp at h
  | cons p rest ih =>
    rcases List.mem_cons.mp h with h | h
    · simp [jsGet, h]
    · by_cases hp : p.1 = x.1
      · simp [jsGet, hp]
      · simp [jsGet, hp, ih h]

/-! ### Reduction lemmas for concrete frames -/

theorem step_sendMessage (st : ServerState) (d : WsData) (entries : List (String × Json)) :
    step st (Event.wsMessage d (some (mkSendMessage entries))) =
      (st, if (handleUserMessage st.sockets d entries).2
           then (handleUserMessage st.sockets d entries).1 ++ [Output.logError]
           else (handleUserMessage st.sockets d entries).1) := rfl

theorem step_sendExchange (st : ServerState) (d : WsData) (key : String) :
    step st (Event.wsMessage d (some (mkSendExchange key))) =
      handleExchange st d key := rfl

theorem isMessage_envelope (content iv : String) :
    isMessage (envelope content iv) = true := rfl

theorem strField_envelope_content (content iv : String) :
    strField (envelope content iv) "content" = some content := rfl

theorem strField_envelope_iv (content iv : String) :
    strField (envelope content iv) "iv" = some iv := rfl

/-! ### The `handleUserMessage` loop -/

theorem terminate_not_mem_handleUserMessage (sockets : List (String × WsData))
    (d : WsData) (entries : List (String × Json)) (u : String) :
    Output.terminate u ∉ (handleUserMessage sockets d entries).1 := by
  induction entries with
  | nil => simp [handleUserMessage]
  | cons e rest ih =>
    obtain ⟨t, msg⟩ := e
    by_cases hm : isMessage msg
    · cases hws : jsGet sockets t with
      | none => simpa [handleUserMessage, hm, hws] using ih
      | some w =>
        cases hlen : getMessageLength ((strField msg "content").getD "") with
        | none => simp [handleUserMessage, hm, hws, hlen]
        | some len =>
          by_cases hl : len = 0 ∨ 256 < len
          · simpa [handleUserMessage, hm, hws, hlen, hl] using ih
          · simpa [handleUserMessage, hm, hws, hlen, hl] using ih
    · simpa [handleUserMessage, hm] using ih

theorem handleUserMessage_single (sockets : List (String × WsData)) (d : WsData)
    (t : String) (tw : WsData) (content iv : String) (l : Int)
    (hlive : jsGet sockets t = some tw)
    (hlen : getMessageLength content = some l) :
    handleUserMessage sockets d [(t, envelope content iv)] =
      (if l = 0 ∨ 256 < l then []
       else [Output.send t (MessageData.message d.username d.uuid content iv)],
       false) := by
  simp only [handleUserMessage, isMessage_envelope, if_true, hlive,
    strField_envelope_content, strField_envelope_iv, Option.getD_some, hlen]
  by_cases hl : l = 0 ∨ 256 < l
  · simp [hl]
  · simp [hl, handleUserMessage]

theorem step_sendMessage_single (st : ServerState) (d : WsData)
    (target : String) (tw : WsData) (content iv : String) (l : Int)
    (hlive : jsGet st.sockets target = some tw)
    (hlen : getMessageLength content = some l) :
    (step st (Event.wsMessage d
        (some (mkSendMessage [(target, envelope content iv)])))).2 =
      if l = 0 ∨ 256 < l then []
      else [Output.send target (MessageData.message d.username d.uuid content iv)] := by
  rw [step_sendMessage, handleUserMessage_single st.sockets d target tw content iv l hlive hlen]
  rfl

theorem handleUserMessage_skip_dead (sockets : List (String × WsData)) (d : WsData)
    (pre : List (String × Json)) (t : String) (msg : Json) (post : List (String × Json))
    (hdead : jsGet sockets t = none) :
    handleUserMessage sockets d (pre ++ (t, msg) :: post) =
      handleUserMessage sockets d (pre ++ post) := by
  induction pre with
  | nil =>
    simp only [List.nil_append]
    by_cases hm : isMessage msg
    · simp [handleUserMessage, hm, hdead]
    · simp [handleUserMessage, hm]
  | cons e rest ih =>
    obtain ⟨t1, m1⟩ := e
    simp only [List.cons_append, handleUserMessage, List.append_eq_has_append]
    rw [ih]

theorem handleUserMessage_abort (sockets : List (String × WsData)) (d : WsData)
    (pre : List (String × Json)) (t content iv : String) (tw : WsData)
    (post : List (String × Json))
    (hpre : (handleUserMessage sockets d pre).2 = false)
    (hbad : getMessageLength content = none)
    (hlive : jsGet sockets t = some tw) :
    handleUserMessage sockets d (pre ++ (t, envelope content iv) :: post) =
      ((handleUserMessage sockets d pre).1, true) := by
  induction pre with
  | nil =>
    simp only [List.nil_append]
    simp [handleUserMessage, isMessage_envelope, hlive, strField_envelope_content, hbad]
  | cons e rest ih =>
    obtain ⟨t1, m1⟩ := e
    simp only [List.cons_append, handleUserMessage, List.append_eq_has_append] at hpre ⊢
    by_cases hm : isMessage m1
    · simp only [hm, if_true] at hpre ⊢
      cases hws : jsGet sockets t1 with
      | none =>
        simp only [hws] at hpre ⊢
        exact ih hpre
      | some w =>
        simp only [hws] at hpre ⊢
        cases hlen : getMessageLength ((strField m1 "content").getD "") with
        | none => simp [hlen] at hpre
        | some len =>
          simp only [hlen] at hpre ⊢
          by_cases hl : len = 0 ∨ 256 < len
          · simp only [hl, if_true] at hpre ⊢
            exact ih hpre
          · simp only [hl, if_false] at hpre ⊢
            rw [ih hpre]
    · simp only [hm, if_false] at hpre ⊢
      exact ih hpre

/-! ### Claim theorems -/

/-- C1 counterexample: the claim says an entry whose `content` decodes to
fewer than 16 bytes (decoded-minus-16 length < 0) is never delivered, but
the code only skips lengths `=== 0` or `> 256`: for `content = ""` the
length is −16 and the entry IS delivered to the live target. -/
theorem C1_counterexample :
    getMessageLength "" = some (-16) ∧
    (step ⟨[("t", ⟨"t", "bob", "r"⟩)], [], []⟩ (Event.wsMessage ⟨"s", "alice", "r"⟩
        (some (mkSendMessage [("t", envelope "" "aa")])))).2 =
      [Output.send "t" (MessageData.message "alice" "s" "" "aa")] :=
  ⟨rfl, rfl⟩

/-- C1 (amended): a `send_message` entry addressed to a live connection
with string `content`/`iv` whose content is valid base64 of decoded-minus-16
length `l` is delivered iff `l ≠ 0 ∧ l ≤ 256`; in particular lengths 1..256
are delivered, 0 and > 256 are skipped, and negative lengths (content
decoding to fewer than 16 bytes) are also delivered. -/
theorem C1_delivery_iff (st : ServerState) (d : WsData) (target : String)
    (tw : WsData) (content iv : String) (l : Int)
    (hlive : jsGet st.sockets target = some tw)
    (hlen : getMessageLength content = some l) :
    Output.send target (MessageData.message d.username d.uuid content iv) ∈
        (step st (Event.wsMessage d
          (some (mkSendMessage [(target, envelope content iv)])))).2 ↔
      l ≠ 0 ∧ l ≤ 256 := by
  rw [step_sendMessage_single st d target tw content iv l hlive hlen]
  constructor
  · intro hmem
    by_cases hl : l = 0 ∨ 256 < l
    · rw [if_pos hl] at hmem
      exact absurd hmem (List.not_mem_nil _)
    · push_neg at hl
      exact hl
  · intro hc
    have hl : ¬(l = 0 ∨ 256 < l) := by
      push_neg
      exact hc
    rw [if_neg hl]
    exact List.mem_singleton_self _

/-- C1 witness: decoded-minus-16 length 1 is delivered. -/
theorem C1_delivery_iff_witness :
    getMessageLength "AAAAAAAAAAAAAAAAAAAAAAA=" = some 1 ∧
    Output.send "t" (MessageData.message "alice" "s" "AAAAAAAAAAAAAAAAAAAAAAA=" "aa") ∈
      (step ⟨[("t", ⟨"t", "bob", "r"⟩)], [], []⟩ (Event.wsMessage ⟨"s", "alice", "r"⟩
        (some (mkSendMessage [("t", envelope "AAAAAAAAAAAAAAAAAAAAAAA=" "aa")])))).2 :=
  ⟨by decide,
   (C1_delivery_iff ⟨[("t", ⟨"t", "bob", "r"⟩)], [], []⟩ ⟨"s", "alice", "r"⟩ "t"
      ⟨"t", "bob", "r"⟩ "AAAAAAAAAAAAAAAAAAAAAAA=" "aa" 1 (by decide) (by decide)).mpr
    (by decide)⟩

/-- C10: a `send_exchange` arriving while the sender's room has no entry
in `roomClientKeys` records nothing and broadcasts nothing — a silent
no-op (reachable: see the C4 counterexample trace, whose final state has
a connected member but no room entry). -/
theorem C10_exchange_no_room_noop (st : ServerState) (d : WsData) (key : String)
    (hnone : jsGet st.roomClientKeys d.room = none) :
    step st (Event.wsMessage d (some (mkSendExchange key))) = (st, []) := by
  rw [step_sendExchange]
  simp [handleExchange, hnone]

/-- C10 witness: the state reached by `open a; open b; close a` in room
"r" has member `b` connected but no key-map entry, and `b`'s exchange is
a no-op. -/
theorem C10_exchange_no_room_noop_witness :
    step ⟨[("b", ⟨"b", "B", "r"⟩)], [], [("b", "r")]⟩
        (Event.wsMessage ⟨"b", "B", "r"⟩ (some (mkSendExchange "K"))) =
      (⟨[("b", ⟨"b", "B", "r"⟩)], [], [("b", "r")]⟩, []) :=
  C10_exchange_no_room_noop ⟨[("b", ⟨"b", "B", "r"⟩)], [], [("b", "r")]⟩
    ⟨"b", "B", "r"⟩ "K" (by decide)

/-- C3: once an identifier has a key recorded in its room's key map, a
further `send_exchange` from it changes nothing (the recorded key stays)
and produces no `exchange` broadcast. -/
theorem C3_reexchange_noop (st : ServerState) (d : WsData) (key k0 : String)
    (keys : List (String × String))
    (hroom : jsGet st.roomClientKeys d.room = some keys)
    (hhas : jsGet keys d.uuid = some k0) :
    step st (Event.wsMessage d (some (mkSendExchange key))) = (st, []) := by
  rw [step_sendExchange]
  simp [handleExchange, hroom, hhas]

/-- C3 witness: re-exchanging "K2" after "K1" was recorded is a no-op. -/
theorem C3_reexchange_noop_witness :
    step ⟨[("a", ⟨"a", "A", "r"⟩)], [("r", [("a", "K1")])], [("a", "r")]⟩
        (Event.wsMessage ⟨"a", "A", "r"⟩ (some (mkSendExchange "K2"))) =
      (⟨[("a", ⟨"a", "A", "r"⟩)], [("r", [("a", "K1")])], [("a", "r")]⟩, []) :=
  C3_reexchange_noop ⟨[("a", ⟨"a", "A", "r"⟩)], [("r", [("a", "K1")])], [("a", "r")]⟩
    ⟨"a", "A", "r"⟩ "K2" "K1" [("a", "K1")] (by decide) (by decide)

/-- C2 counterexample: the claim says a recognized `type` missing its
required sub-field terminates the connection, but on
`{"type":"send_message"}` (no `messages`) the handler falls through the
`if` and emits nothing: no terminate, state unchanged. -/
theorem C2_counterexample :
    step initialState (Event.wsMessage ⟨"u0", "alice", "r0"⟩
        (some (Json.obj [("type", Json.str "send_message")]))) =
      (initialState, []) := rfl

/-- C2 (amended): the handler terminates the connection exactly when the
frame fails to parse, parses to a value without a string `type` property,
or carries an unrecognized `type`; a recognized `type` whose required
sub-field is missing or mistyped is a silent no-op, and in all remaining
cases the connection also stays open. -/
theorem C2_terminate_iff (st : ServerState) (d : WsData) (frame : Option Json) :
    Output.terminate d.uuid ∈ (step st (Event.wsMessage d frame)).2 ↔
      frame.bind typeField = none ∨
      ∃ ty, frame.bind typeField = some ty ∧
        ty ≠ "send_message" ∧ ty ≠ "send_exchange" := by
  cases frame with
  | none => simp [step, handleMessage]
  | some data =>
    cases hty : typeField data with
    | none => simp [step, handleMessage, hty]
    | some ty =>
      by_cases h1 : ty = "send_message"
      · subst h1
        simp only [step, handleMessage, hty, Option.bind_some, if_true]
        cases hmf : anyField data "messages" with
        | none => simp [hmf, hty]
        | some msgs =>
          by_cases ho : isJsObjectValue msgs
          · simp only [hmf, ho, if_true]
            by_cases hthrew : (handleUserMessage st.sockets d (entriesOf msgs)).2
            · simp [hthrew, terminate_not_mem_handleUserMessage, hty]
            · simp [hthrew, terminate_not_mem_handleUserMessage, hty]
          · simp [hmf, ho, hty]
      · by_cases h2 : ty = "send_exchange"
        · subst h2
          simp only [step, handleMessage, hty, Option.bind_some]
          cases hkf : anyField data "key" with
          | none => simp [hkf, h1, hty]
          | some kj =>
            cases kj with
            | str k =>
              simp only [hkf, h1, if_false, if_true]
              cases hrk : jsGet st.roomClientKeys d.room with
              | none => simp [handleExchange, hrk, hty]
              | some keys =>
                by_cases hhas : (jsGet keys d.uuid).isSome
                · simp [handleExchange, hrk, hhas, hty]
                · simp [handleExchange, hrk, hhas, hty]
            | null => simp [hkf, h1, hty]
            | bool b => simp [hkf, h1, hty]
            | num n => simp [hkf, h1, hty]
            | arr xs => simp [hkf, h1, hty]
            | obj fs => simp [hkf, h1, hty]
        · simp [step, handleMessage, hty, h1, h2]

/-- C2 witness: an unparsable frame (`JSON.parse` throws) terminates. -/
theorem C2_terminate_iff_witness :
    Output.terminate "u0" ∈
      (step initialState (Event.wsMessage ⟨"u0", "alice", "r0"⟩ none)).2 :=
  (C2_terminate_iff initialState ⟨"u0", "alice", "r0"⟩ none).mpr (Or.inl rfl)

/-- C7: a `send_message` entry whose target identifier is not in the
Connection Registry is silently dropped: the batch behaves exactly as if
the entry were absent (so the other entries are still processed, nothing
is delivered for it, no error or terminate is produced for it), and the
registries are unchanged. -/
theorem C7_dead_target_skipped (st : ServerState) (d : WsData)
    (pre : List (String × Json)) (t : String) (msg : Json)
    (post : List (String × Json))
    (hdead : jsGet st.sockets t = none) :
    step st (Event.wsMessage d (some (mkSendMessage (pre ++ (t, msg) :: post)))) =
      step st (Event.wsMessage d (some (mkSendMessage (pre ++ post)))) ∧
    (step st (Event.wsMessage d (some (mkSendMessage (pre ++ (t, msg) :: post))))).1 = st := by
  rw [step_sendMessage, step_sendMessage,
    handleUserMessage_skip_dead st.sockets d pre t msg post hdead]
  exact ⟨rfl, rfl⟩

/-- C7 witness: a batch with a dead first target still delivers the
second entry, exactly as the one-entry batch would. -/
theorem C7_dead_target_skipped_witness :
    step ⟨[("b", ⟨"b", "B", "r"⟩)], [], []⟩ (Event.wsMessage ⟨"s", "A", "r"⟩
        (some (mkSendMessage [("dead", envelope "AAAAAAAAAAAAAAAAAAAAAAA=" "aa"),
                              ("b", envelope "AAAAAAAAAAAAAAAAAAAAAAA=" "aa")]))) =
      step ⟨[("b", ⟨"b", "B", "r"⟩)], [], []⟩ (Event.wsMessage ⟨"s", "A", "r"⟩
        (some (mkSendMessage [("b", envelope "AAAAAAAAAAAAAAAAAAAAAAA=" "aa")]))) :=
  (C7_dead_target_skipped ⟨[("b", ⟨"b", "B", "r"⟩)], [], []⟩ ⟨"s", "A", "r"⟩
    [] "dead" (envelope "AAAAAAAAAAAAAAAAAAAAAAA=" "aa")
    [("b", envelope "AAAAAAAAAAAAAAAAAAAAAAA=" "aa")] (by decide)).1

/-- C6 counterexample: the claim says an invalid-base64 entry is skipped
with the remaining entries still processed, but the `atob` exception
aborts the whole batch: with a bad first entry and a valid second entry
(both targets live) nothing at all is delivered — only the server-side
error log happens — although the second entry alone would be delivered. -/
theorem C6_counterexample :
    (step ⟨[("t1", ⟨"t1", "B", "r"⟩), ("t2", ⟨"t2", "C", "r"⟩)], [], []⟩
        (Event.wsMessage ⟨"s", "A", "r"⟩ (some (mkSendMessage
          [("t1", envelope "!!!!" "aa"),
           ("t2", envelope "AAAAAAAAAAAAAAAAAAAAAAA=" "aa")])))).2 =
      [Output.logError] ∧
    (step ⟨[("t1", ⟨"t1", "B", "r"⟩), ("t2", ⟨"t2", "C", "r"⟩)], [], []⟩
        (Event.wsMessage ⟨"s", "A", "r"⟩ (some (mkSendMessage
          [("t2", envelope "AAAAAAAAAAAAAAAAAAAAAAA=" "aa")])))).2 =
      [Output.send "t2" (MessageData.message "A" "s" "AAAAAAAAAAAAAAAAAAAAAAA=" "aa")] :=
  ⟨rfl, rfl⟩

/-- C6 (amended): an entry whose `content` is not valid base64 (with a
live target, so that `atob` is reached) makes `getMessageLength` throw:
the entry and every later entry of the batch are not delivered, while the
earlier entries were already processed normally; `wrapInErrorHandler`
catches the exception and only logs it — the sender's connection is never
terminated, no error is sent back, and the registries are unchanged. -/
theorem C6_invalid_base64_aborts (st : ServerState) (d : WsData)
    (pre : List (String × Json)) (t content iv : String) (tw : WsData)
    (post : List (String × Json))
    (hpre : (handleUserMessage st.sockets d pre).2 = false)
    (hbad : getMessageLength content = none)
    (hlive : jsGet st.sockets t = some tw) :
    step st (Event.wsMessage d
        (some (mkSendMessage (pre ++ (t, envelope content iv) :: post)))) =
      (st, (handleUserMessage st.sockets d pre).1 ++ [Output.logError]) ∧
    ∀ u, Output.terminate u ∉
      (step st (Event.wsMessage d
        (some (mkSendMessage (pre ++ (t, envelope content iv) :: post))))).2 := by
  rw [step_sendMessage, handleUserMessage_abort st.sockets d pre t content iv tw post
    hpre hbad hlive]
  refine ⟨rfl, fun u => ?_⟩
  simp only [if_true, List.mem_append, List.mem_singleton]
  rintro (h | h)
  · exact terminate_not_mem_handleUserMessage st.sockets d pre u h
  · exact Output.noConfusion h

/-- C6 witness: with a valid first entry, a bad-base64 second entry, and
a would-be-valid third entry, only the first entry's send and the error
log are produced. -/
theorem C6_invalid_base64_aborts_witness :
    step ⟨[("t1", ⟨"t1", "B", "r"⟩), ("t2", ⟨"t2", "C", "r"⟩)], [], []⟩
        (Event.wsMessage ⟨"s", "A", "r"⟩ (some (mkSendMessage
          ([("t1", envelope "AAAAAAAAAAAAAAAAAAAAAAA=" "aa")] ++
            ("t2", envelope "!!!!" "aa") ::
            [("t1", envelope "AAAAAAAAAAAAAAAAAAAAAAA=" "aa")])))) =
      (⟨[("t1", ⟨"t1", "B", "r"⟩), ("t2", ⟨"t2", "C", "r"⟩)], [], []⟩,
       [Output.send "t1" (MessageData.message "A" "s" "AAAAAAAAAAAAAAAAAAAAAAA=" "aa"),
        Output.logError]) :=
  (C6_invalid_base64_aborts ⟨[("t1", ⟨"t1", "B", "r"⟩), ("t2", ⟨"t2", "C", "r"⟩)], [], []⟩
    ⟨"s", "A", "r"⟩ [("t1", envelope "AAAAAAAAAAAAAAAAAAAAAAA=" "aa")] "t2" "!!!!" "aa"
    ⟨"t2", "C", "r"⟩ [("t1", envelope "AAAAAAAAAAAAAAAAAAAAAAA=" "aa")]
    (by decide) (by decide) (by decide)).1

/-- C9: delivery never consults rooms. First, a valid entry addressed to
a live connection registered under a different room than the sender is
delivered anyway; second, the outputs of any `send_message` frame are
unchanged under arbitrary replacement of the Room Registry and the
subscriptions — only `sockets` matters. -/
theorem C9_delivery_ignores_rooms (st : ServerState) (d : WsData) (t : String)
    (tw : WsData) (content iv : String) (l : Int)
    (hlive : jsGet st.sockets t = some tw)
    (_hdiff : tw.room ≠ d.room)
    (hlen : getMessageLength content = some l) (h0 : l ≠ 0) (h256 : l ≤ 256) :
    Output.send t (MessageData.message d.username d.uuid content iv) ∈
      (step st (Event.wsMessage d (some (mkSendMessage [(t, envelope content iv)])))).2 ∧
    ∀ (rck : List (String × List (String × String))) (subs : List (String × String))
      (entries : List (String × Json)),
      (step ⟨st.sockets, rck, subs⟩ (Event.wsMessage d (some (mkSendMessage entries)))).2 =
        (step st (Event.wsMessage d (some (mkSendMessage entries)))).2 := by
  constructor
  · rw [step_sendMessage_single st d t tw content iv l hlive hlen]
    rw [if_neg (by push_neg; exact ⟨h0, h256⟩)]
    exact List.mem_singleton_self _
  · intro rck subs entries
    rw [step_sendMessage, step_sendMessage]

/-- C9 witness: sender in room "r1", target registered in room "r2" —
the message is delivered across rooms. -/
theorem C9_delivery_ignores_rooms_witness :
    Output.send "t" (MessageData.message "A" "s" "AAAAAAAAAAAAAAAAAAAAAAA=" "aa") ∈
      (step ⟨[("t", ⟨"t", "B", "r2"⟩)], [], []⟩ (Event.wsMessage ⟨"s", "A", "r1"⟩
        (some (mkSendMessage [("t", envelope "AAAAAAAAAAAAAAAAAAAAAAA=" "aa")])))).2 :=
  (C9_delivery_ignores_rooms ⟨[("t", ⟨"t", "B", "r2"⟩)], [], []⟩ ⟨"s", "A", "r1"⟩
    "t" ⟨"t", "B", "r2"⟩ "AAAAAAAAAAAAAAAAAAAAAAA=" "aa" 1 (by decide) (by decide)
    (by decide) (by decide) (by decide)).1

/-- C8: the upgrade request is rejected with HTTP 400 (before any
connection context is constructed, so no connection is created and no
registry is touched) exactly when the supplied username is longer than 16
characters, the room parameter is missing or empty, or the room is longer
than 32 characters; and a missing or empty username behaves exactly as
the username "Anonymous". -/
theorem C8_upgrade_validation (usernameParam roomParam : Option String)
    (uuid : String) :
    ((∃ body, upgradeSocket usernameParam roomParam uuid = UpgradeResult.reject 400 body) ↔
      ((∃ u, usernameParam = some u ∧ 16 < u.length) ∨
        roomParam = none ∨ roomParam = some "" ∨
        (∃ r, roomParam = some r ∧ 32 < r.length))) ∧
    ((usernameParam = none ∨ usernameParam = some "") →
      upgradeSocket usernameParam roomParam uuid =
        upgradeSocket (some "Anonymous") roomParam uuid) := by
  have hanon : ¬ 16 < ("Anonymous" : String).length := by decide
  constructor
  · cases usernameParam with
    | none =>
      cases roomParam with
      | none => simp [upgradeSocket]
      | some r =>
        by_cases hr : r = ""
        · subst hr
          simp [upgradeSocket]
        · by_cases hrl : 32 < r.length
          · simp [upgradeSocket, hr, hrl, hanon]
          · simp [upgradeSocket, hr, hrl, hanon]
    | some u =>
      by_cases hu : u = ""
      · subst hu
        cases roomParam with
        | none => simp [upgradeSocket]
        | some r =>
          by_cases hr : r = ""
          · subst hr
            simp [upgradeSocket]
          · by_cases hrl : 32 < r.length
            · simp [upgradeSocket, hr, hrl, hanon]
            · simp [upgradeSocket, hr, hrl, hanon]
      · by_cases hul : 16 < u.length
        · cases roomParam with
          | none => simp [upgradeSocket, hu, hul]
          | some r => simp [upgradeSocket, hu, hul]
        · cases roomParam with
          | none => simp [upgradeSocket, hu, hul]
          | some r =>
            by_cases hr : r = ""
            · subst hr
              simp [upgradeSocket, hu, hul]
            · by_cases hrl : 32 < r.length
              · simp [upgradeSocket, hu, hul, hr, hrl]
              · simp [upgradeSocket, hu, hul, hr, hrl]
  · rintro (h | h) <;> subst h <;> simp [upgradeSocket]

/-- C8 witness: empty username defaults to "Anonymous", and an
over-long room is rejected with 400. -/
theorem C8_upgrade_validation_witness :
    upgradeSocket (some "") (some "r") "u" = upgradeSocket (some "Anonymous") (some "r") "u" ∧
    (∃ body, upgradeSocket (some "alice") (some "roomroomroomroomroomroomroomroomx") "u" =
      UpgradeResult.reject 400 body) :=
  ⟨(C8_upgrade_validation (some "") (some "r") "u").2 (Or.inr rfl),
   (C8_upgrade_validation (some "alice") (some "roomroomroomroomroomroomroomroomx") "u").1.mpr
     (Or.inr (Or.inr (Or.inr ⟨"roomroomroomroomroomroomroomroomx", rfl, by decide⟩)))⟩

/-! ### Lifecycle state characterizations -/

theorem open_state (st : ServerState) (d : WsData) :
    (step st (Event.wsOpen d)).1 =
      ⟨jsSet st.sockets d.uuid d,
       if (jsGet st.roomClientKeys d.room).isSome then st.roomClientKeys
       else jsSet st.roomClientKeys d.room [],
       if (d.uuid, d.room) ∈ st.subscriptions then st.subscriptions
       else st.subscriptions ++ [(d.uuid, d.room)]⟩ := rfl

theorem close_state (st : ServerState) (d : WsData) :
    (step st (Event.wsClose d)).1 =
      ⟨jsDelete st.sockets d.uuid,
       match jsGet st.roomClientKeys d.room with
       | none => st.roomClientKeys
       | some keys =>
         if (jsDelete keys d.uuid).isEmpty then jsDelete st.roomClientKeys d.room
         else jsSet st.roomClientKeys d.room (jsDelete keys d.uuid),
       st.subscriptions.filter (fun p => p ≠ (d.uuid, d.room))⟩ := rfl

theorem isEmpty_false_of_jsGet_some {β : Type} (m : List (String × β)) (u : String)
    (v : β) (h : jsGet m u = some v) : m.isEmpty = false := by
  cases m with
  | nil => simp [jsGet] at h
  | cons p rest => rfl

theorem exists_mem_of_isEmpty_false {β : Type} (m : List (String × β))
    (h : m.isEmpty = false) : ∃ x, x ∈ m := by
  cases m with
  | nil => simp [List.isEmpty] at h
  | cons p rest => exact ⟨p, List.mem_cons_self p rest⟩

/-- A `message` event either leaves the state unchanged, or (successful
`send_exchange`) records a fresh key for the sender's uuid in its room's
key map. -/
theorem step_message_state (st : ServerState) (d : WsData) (frame : Option Json) :
    (step st (Event.wsMessage d frame)).1 = st ∨
    ∃ key keys, jsGet st.roomClientKeys d.room = some keys ∧
      jsGet keys d.uuid = none ∧
      (step st (Event.wsMessage d frame)).1 =
        { st with roomClientKeys := jsSet st.roomClientKeys d.room (jsSet keys d.uuid key) } := by
  cases frame with
  | none => exact Or.inl rfl
  | some data =>
    cases hty : typeField data with
    | none => exact Or.inl (by simp [step, handleMessage, hty])
    | some ty =>
      by_cases h1 : ty = "send_message"
      · subst h1
        cases hmf : anyField data "messages" with
        | none => exact Or.inl (by simp [step, handleMessage, hty, hmf])
        | some msgs =>
          by_cases ho : isJsObjectValue msgs
          · exact Or.inl (by simp [step, handleMessage, hty, hmf, ho])
          · exact Or.inl (by simp [step, handleMessage, hty, hmf, ho])
      · by_cases h2 : ty = "send_exchange"
        · subst h2
          cases hkf : anyField data "key" with
          | none => exact Or.inl (by simp [step, handleMessage, hty, h1, hkf])
          | some kj =>
            cases kj with
            | str key =>
              cases hrk : jsGet st.roomClientKeys d.room with
              | none =>
                exact Or.inl (by simp [step, handleMessage, hty, h1, hkf, handleExchange, hrk])
              | some keys =>
                cases hnew : jsGet keys d.uuid with
                | some k0 =>
                  exact Or.inl (by
                    simp [step, handleMessage, hty, h1, hkf, handleExchange, hrk, hnew])
                | none =>
                  refine Or.inr ⟨key, keys, rfl, hnew, ?_⟩
                  simp [step, handleMessage, hty, h1, hkf, handleExchange, hrk, hnew]
            | null => exact Or.inl (by simp [step, handleMessage, hty, h1, hkf])
            | bool b => exact Or.inl (by simp [step, handleMessage, hty, h1, hkf])
            | num n => exact Or.inl (by simp [step, handleMessage, hty, h1, hkf])
            | arr xs => exact Or.inl (by simp [step, handleMessage, hty, h1, hkf])
            | obj fs => exact Or.inl (by simp [step, handleMessage, hty, h1, hkf])
        · exact Or.inl (by simp [step, handleMessage, hty, h1, h2])

/-! ### Registry invariant (C4) -/

/-- Internal consistency of the registries on every reachable state:
all maps have duplicate-free keys, every room entry has at least one
connected member in that room, and every recorded key belongs to a
connected member of that room. -/
structure Inv (st : ServerState) : Prop where
  socketsNodup : nodupKeys st.sockets
  roomsNodup : nodupKeys st.roomClientKeys
  keysNodup : ∀ r ks, jsGet st.roomClientKeys r = some ks → nodupKeys ks
  member : ∀ r ks, jsGet st.roomClientKeys r = some ks →
    ∃ u w, jsGet st.sockets u = some w ∧ w.room = r
  keyLive : ∀ r ks, jsGet st.roomClientKeys r = some ks →
    ∀ u k, jsGet ks u = some k → ∃ w, jsGet st.sockets u = some w ∧ w.room = r

theorem Inv_initialState : Inv initialState := by
  refine ⟨?_, ?_, ?_, ?_, ?_⟩ <;> simp [initialState, nodupKeys, jsGet]

theorem Inv_step (st : ServerState) (e : Event) (hInv : Inv st)
    (hv : validEvent st e = true) : Inv (step st e).1 := by
  cases e with
  | wsOpen d =>
    simp only [validEvent, beq_iff_eq] at hv
    rw [open_state]
    by_cases hs : (jsGet st.roomClientKeys d.room).isSome
    · rw [if_pos hs]
      refine ⟨nodupKeys_jsSet _ _ _ hInv.socketsNodup, hInv.roomsNodup,
        hInv.keysNodup, ?_, ?_⟩
      · intro r ks h
        obtain ⟨u, w, hw, hr⟩ := hInv.member r ks h
        have hune : u ≠ d.uuid := fun heq => by
          rw [heq, hv] at hw
          exact Option.noConfusion hw
        exact ⟨u, w, by rwa [jsGet_jsSet_ne _ _ _ _ hune], hr⟩
      · intro r ks h u k hk
        obtain ⟨w, hw, hr⟩ := hInv.keyLive r ks h u k hk
        have hune : u ≠ d.uuid := fun heq => by
          rw [heq, hv] at hw
          exact Option.noConfusion hw
        exact ⟨w, by rwa [jsGet_jsSet_ne _ _ _ _ hune], hr⟩
    · rw [if_neg hs]
      refine ⟨nodupKeys_jsSet _ _ _ hInv.socketsNodup,
        nodupKeys_jsSet _ _ _ hInv.roomsNodup, ?_, ?_, ?_⟩
      · intro r ks h
        by_cases hr : r = d.room
        · subst hr
          rw [jsGet_jsSet_self] at h
          cases h
          simp [nodupKeys]
        · rw [jsGet_jsSet_ne _ _ _ _ hr] at h
          exact hInv.keysNodup r ks h
      · intro r ks h
        by_cases hr : r = d.room
        · subst hr
          exact ⟨d.uuid, d, jsGet_jsSet_self _ _ _, rfl⟩
        · rw [jsGet_jsSet_ne _ _ _ _ hr] at h
          obtain ⟨u, w, hw, hwr⟩ := hInv.member r ks h
          have hune : u ≠ d.uuid := fun heq => by
            rw [heq, hv] at hw
            exact Option.noConfusion hw
          exact ⟨u, w, by rwa [jsGet_jsSet_ne _ _ _ _ hune], hwr⟩
      · intro r ks h u k hk
        by_cases hr : r = d.room
        · subst hr
          rw [jsGet_jsSet_self] at h
          cases h
          simp [jsGet] at hk
        · rw [jsGet_jsSet_ne _ _ _ _ hr] at h
          obtain ⟨w, hw, hwr⟩ := hInv.keyLive r ks h u k hk
          have hune : u ≠ d.uuid := fun heq => by
            rw [heq, hv] at hw
            exact Option.noConfusion hw
          exact ⟨w, by rwa [jsGet_jsSet_ne _ _ _ _ hune], hwr⟩
  | wsClose d =>
    simp only [validEvent, beq_iff_eq] at hv
    rw [close_state]
    have liveNe : ∀ (u : String) (w : WsData), jsGet st.sockets u = some w →
        w.room ≠ d.room → u ≠ d.uuid := by
      intro u w hw hroom heq
      rw [heq, hv] at hw
      cases hw
      exact hroom rfl
    cases hrk : jsGet st.roomClientKeys d.room with
    | none =>
      refine ⟨nodupKeys_jsDelete _ _ hInv.socketsNodup, hInv.roomsNodup, hInv.keysNodup, ?_, ?_⟩
      · intro r ks h
        obtain ⟨u, w, hw, hwr⟩ := hInv.member r ks h
        have hune : u ≠ d.uuid := liveNe u w hw (by
          rw [hwr]
          intro he
          rw [he] at h
          rw [h] at hrk
          exact Option.noConfusion hrk)
        exact ⟨u, w, by rwa [jsGet_jsDelete_ne _ _ _ hune], hwr⟩
      · intro r ks h u k hk
        obtain ⟨w, hw, hwr⟩ := hInv.keyLive r ks h u k hk
        have hune : u ≠ d.uuid := liveNe u w hw (by
          rw [hwr]
          intro he
          rw [he] at h
          rw [h] at hrk
          exact Option.noConfusion hrk)
        exact ⟨w, by rwa [jsGet_jsDelete_ne _ _ _ hune], hwr⟩
    | some keys =>
      by_cases hemp : (jsDelete keys d.uuid).isEmpty
      · simp only [hemp, eq_self_iff_true, if_true]
        refine ⟨nodupKeys_jsDelete _ _ hInv.socketsNodup,
          nodupKeys_jsDelete _ _ hInv.roomsNodup, ?_, ?_, ?_⟩
        · intro r ks h
          by_cases hr : r = d.room
          · subst hr
            rw [jsGet_jsDelete_self _ _ hInv.roomsNodup] at h
            exact Option.noConfusion h
          · rw [jsGet_jsDelete_ne _ _ _ hr] at h
            exact hInv.keysNodup r ks h
        · intro r ks h
          by_cases hr : r = d.room
          · subst hr
            rw [jsGet_jsDelete_self _ _ hInv.roomsNodup] at h
            exact Option.noConfusion h
          · rw [jsGet_jsDelete_ne _ _ _ hr] at h
            obtain ⟨u, w, hw, hwr⟩ := hInv.member r ks h
            have hune : u ≠ d.uuid := liveNe u w hw (by rw [hwr]; exact hr)
            exact ⟨u, w, by rwa [jsGet_jsDelete_ne _ _ _ hune], hwr⟩
        · intro r ks h u k hk
          by_cases hr : r = d.room
          · subst hr
            rw [jsGet_jsDelete_self _ _ hInv.roomsNodup] at h
            exact Option.noConfusion h
          · rw [jsGet_jsDelete_ne _ _ _ hr] at h
            obtain ⟨w, hw, hwr⟩ := hInv.keyLive r ks h u k hk
            have hune : u ≠ d.uuid := liveNe u w hw (by rw [hwr]; exact hr)
            exact ⟨w, by rwa [jsGet_jsDelete_ne _ _ _ hune], hwr⟩
      · have hempf : (jsDelete keys d.uuid).isEmpty = false := Bool.eq_false_iff.mpr hemp
        simp only [hempf, Bool.false_eq_true, if_false]
        have keyLive2 : ∀ u k, jsGet (jsDelete keys d.uuid) u = some k →
            ∃ w, jsGet (jsDelete st.sockets d.uuid) u = some w ∧ w.room = d.room := by
          intro u k hk
          have hune : u ≠ d.uuid := by
            intro heq
            rw [heq, jsGet_jsDelete_self _ _ (hInv.keysNodup _ _ hrk)] at hk
            exact Option.noConfusion hk
          rw [jsGet_jsDelete_ne _ _ _ hune] at hk
          obtain ⟨w, hw, hwr⟩ := hInv.keyLive d.room keys hrk u k hk
          exact ⟨w, by rwa [jsGet_jsDelete_ne _ _ _ hune], hwr⟩
        refine ⟨nodupKeys_jsDelete _ _ hInv.socketsNodup,
          nodupKeys_jsSet _ _ _ hInv.roomsNodup, ?_, ?_, ?_⟩
        · intro r ks h
          by_cases hr : r = d.room
          · subst hr
            rw [jsGet_jsSet_self] at h
            cases h
            exact nodupKeys_jsDelete _ _ (hInv.keysNodup _ _ hrk)
          · rw [jsGet_jsSet_ne _ _ _ _ hr] at h
            exact hInv.keysNodup r ks h
        · intro r ks h
          by_cases hr : r = d.room
          · subst hr
            rw [jsGet_jsSet_self] at h
            cases h
            obtain ⟨x, hx⟩ := exists_mem_of_isEmpty_false _ (Bool.eq_false_iff.mpr hemp)
            obtain ⟨k, hk⟩ := Option.isSome_iff_exists.mp (jsGet_isSome_of_mem _ x hx)
            obtain ⟨w, hw, hwr⟩ := keyLive2 x.1 k hk
            exact ⟨x.1, w, hw, hwr⟩
          · rw [jsGet_jsSet_ne _ _ _ _ hr] at h
            obtain ⟨u, w, hw, hwr⟩ := hInv.member r ks h
            have hune : u ≠ d.uuid := liveNe u w hw (by rw [hwr]; exact hr)
            exact ⟨u, w, by rwa [jsGet_jsDelete_ne _ _ _ hune], hwr⟩
        · intro r ks h u k hk
          by_cases hr : r = d.room
          · subst hr
            rw [jsGet_jsSet_self] at h
            cases h
            exact keyLive2 u k hk
          · rw [jsGet_jsSet_ne _ _ _ _ hr] at h
            obtain ⟨w, hw, hwr⟩ := hInv.keyLive r ks h u k hk
            have hune : u ≠ d.uuid := liveNe u w hw (by rw [hwr]; exact hr)
            exact ⟨w, by rwa [jsGet_jsDelete_ne _ _ _ hune], hwr⟩
  | wsMessage d frame =>
    simp only [validEvent, beq_iff_eq] at hv
    rcases step_message_state st d frame with h | ⟨key, keys, hrk, hnew, h⟩
    · rw [h]
      exact hInv
    · rw [h]
      refine ⟨hInv.socketsNodup, nodupKeys_jsSet _ _ _ hInv.roomsNodup, ?_, ?_, ?_⟩
      · intro r ks hks
        by_cases hr : r = d.room
        · subst hr
          rw [jsGet_jsSet_self] at hks
          cases hks
          exact nodupKeys_jsSet _ _ _ (hInv.keysNodup _ _ hrk)
        · rw [jsGet_jsSet_ne _ _ _ _ hr] at hks
          exact hInv.keysNodup r ks hks
      · intro r ks hks
        by_cases hr : r = d.room
        · subst hr
          exact hInv.member d.room keys hrk
        · rw [jsGet_jsSet_ne _ _ _ _ hr] at hks
          exact hInv.member r ks hks
      · intro r ks hks u k hk
        by_cases hr : r = d.room
        · subst hr
          rw [jsGet_jsSet_self] at hks
          cases hks
          by_cases hu : u = d.uuid
          · subst hu
            exact ⟨d, hv, rfl⟩
          · rw [jsGet_jsSet_ne _ _ _ _ hu] at hk
            exact hInv.keyLive d.room keys hrk u k hk
        · rw [jsGet_jsSet_ne _ _ _ _ hr] at hks
          exact hInv.keyLive r ks hks u k hk

theorem Inv_run (st : ServerState) (tr : List Event) (hInv : Inv st)
    (hv : validTrace st tr = true) : Inv (run st tr) := by
  induction tr generalizing st with
  | nil => exact hInv
  | cons e es ih =>
    simp only [validTrace, Bool.and_eq_true] at hv
    exact ih _ (Inv_step st e hInv hv.1) hv.2

/-- C4 counterexample: the claim says the room entry persists as long as
any member remains connected, but after `open a; open b; close a` in room
"r" (a valid trace: fresh uuids, close of a live connection) member `b`
is still registered while the room's entry is gone — the close deleted
the entry because the key map was empty, not because the last member
left. -/
theorem C4_counterexample :
    validTrace initialState [Event.wsOpen ⟨"a", "A", "r"⟩, Event.wsOpen ⟨"b", "B", "r"⟩,
        Event.wsClose ⟨"a", "A", "r"⟩] = true ∧
    jsGet (run initialState [Event.wsOpen ⟨"a", "A", "r"⟩, Event.wsOpen ⟨"b", "B", "r"⟩,
        Event.wsClose ⟨"a", "A", "r"⟩]).sockets "b" = some ⟨"b", "B", "r"⟩ ∧
    jsGet (run initialState [Event.wsOpen ⟨"a", "A", "r"⟩, Event.wsOpen ⟨"b", "B", "r"⟩,
        Event.wsClose ⟨"a", "A", "r"⟩]).roomClientKeys "r" = none :=
  ⟨rfl, rfl, rfl⟩

/-- C4 (amended): on every state reached by a valid trace, a room entry
implies at least one connected member in that room (so no entry ever
exists with zero members), and any join creates the joiner's room entry
if absent; however the entry need NOT persist while members remain: a
close that leaves the key map empty deletes it (see the
counterexample). -/
theorem C4_room_entry_iff_members (tr : List Event)
    (hv : validTrace initialState tr = true) :
    (∀ r ks, jsGet (run initialState tr).roomClientKeys r = some ks →
      ∃ u w, jsGet (run initialState tr).sockets u = some w ∧ w.room = r) ∧
    ∀ (st : ServerState) (d : WsData),
      (jsGet (step st (Event.wsOpen d)).1.roomClientKeys d.room).isSome := by
  constructor
  · exact (Inv_run initialState tr Inv_initialState hv).member
  · intro st d
    rw [open_state]
    by_cases hs : (jsGet st.roomClientKeys d.room).isSome
    · rw [if_pos hs]
      exact hs
    · rw [if_neg hs, jsGet_jsSet_self]
      rfl

/-- C4 witness: after the single join `open a` the room "r" has an entry
and the theorem yields its connected member. -/
theorem C4_room_entry_iff_members_witness :
    validTrace initialState [Event.wsOpen ⟨"a", "A", "r"⟩] = true ∧
    ∃ u w, jsGet (run initialState [Event.wsOpen ⟨"a", "A", "r"⟩]).sockets u = some w ∧
      w.room = "r" :=
  ⟨rfl, (C4_room_entry_iff_members [Event.wsOpen ⟨"a", "A", "r"⟩] rfl).1 "r" []
    (by decide)⟩

/-! ### Key persistence (C5) -/

theorem key_preserved_step (st : ServerState) (e : Event) (r u k : String)
    (hnc : ∀ d, e = Event.wsClose d → d.uuid ≠ u)
    (hrec : ∃ ks, jsGet st.roomClientKeys r = some ks ∧ jsGet ks u = some k) :
    ∃ ks, jsGet (step st e).1.roomClientKeys r = some ks ∧ jsGet ks u = some k := by
  obtain ⟨ks, h1, h2⟩ := hrec
  cases e with
  | wsOpen d =>
    rw [open_state]
    by_cases hs : (jsGet st.roomClientKeys d.room).isSome
    · rw [if_pos hs]
      exact ⟨ks, h1, h2⟩
    · rw [if_neg hs]
      have hr : r ≠ d.room := by
        intro he
        rw [← he, h1] at hs
        exact hs rfl
      rw [jsGet_jsSet_ne _ _ _ _ hr]
      exact ⟨ks, h1, h2⟩
  | wsClose d =>
    have hd : d.uuid ≠ u := hnc d rfl
    have hud : u ≠ d.uuid := Ne.symm hd
    rw [close_state]
    cases hrk : jsGet st.roomClientKeys d.room with
    | none => exact ⟨ks, h1, h2⟩
    | some keys =>
      by_cases hr : r = d.room
      · subst hr
        rw [h1] at hrk
        cases hrk
        have h2' : jsGet (jsDelete ks d.uuid) u = some k := by
          rwa [jsGet_jsDelete_ne _ _ _ hud]
        have hemp : (jsDelete ks d.uuid).isEmpty = false :=
          isEmpty_false_of_jsGet_some _ u k h2'
        simp only [hemp, Bool.false_eq_true, if_false]
        exact ⟨jsDelete ks d.uuid, jsGet_jsSet_self _ _ _, h2'⟩
      · by_cases hemp : (jsDelete keys d.uuid).isEmpty
        · simp only [hemp, eq_self_iff_true, if_true]
          rw [jsGet_jsDelete_ne _ _ _ hr]
          exact ⟨ks, h1, h2⟩
        · have hempf : (jsDelete keys d.uuid).isEmpty = false := Bool.eq_false_iff.mpr hemp
          simp only [hempf, Bool.false_eq_true, if_false]
          rw [jsGet_jsSet_ne _ _ _ _ hr]
          exact ⟨ks, h1, h2⟩
  | wsMessage d frame =>
    rcases step_message_state st d frame with h | ⟨key, keys, hrk, hnew, h⟩
    · rw [h]
      exact ⟨ks, h1, h2⟩
    · rw [h]
      by_cases hr : r = d.room
      · subst hr
        rw [h1] at hrk
        cases hrk
        have hud : u ≠ d.uuid := by
          intro he
          rw [he, hnew] at h2
          exact Option.noConfusion h2
        refine ⟨jsSet ks d.uuid key, jsGet_jsSet_self _ _ _, ?_⟩
        rwa [jsGet_jsSet_ne _ _ _ _ hud]
      · rw [jsGet_jsSet_ne _ _ _ _ hr]
        exact ⟨ks, h1, h2⟩

theorem key_preserved_run (st : ServerState) (es : List Event) (r u k : String)
    (hnc : ∀ d, Event.wsClose d ∈ es → d.uuid ≠ u)
    (hrec : ∃ ks, jsGet st.roomClientKeys r = some ks ∧ jsGet ks u = some k) :
    ∃ ks, jsGet (run st es).roomClientKeys r = some ks ∧ jsGet ks u = some k := by
  induction es generalizing st with
  | nil => exact hrec
  | cons e es ih =>
    exact ih (step st e).1 (fun d hd => hnc d (List.mem_cons_of_mem _ hd))
      (key_preserved_step st e r u k (fun d he => hnc d (he ▸ List.mem_cons_self _ _)) hrec)

theorem open_subscribes (st : ServerState) (d : WsData) :
    (d.uuid, d.room) ∈ (step st (Event.wsOpen d)).1.subscriptions := by
  rw [open_state]
  by_cases hs : (d.uuid, d.room) ∈ st.subscriptions
  · rw [if_pos hs]
    exact hs
  · rw [if_neg hs]
    exact List.mem_append_right _ (List.mem_singleton_self _)

theorem open_outputs (st : ServerState) (d : WsData) :
    (step st (Event.wsOpen d)).2 =
      [Output.publish d.room (MessageData.announcement (d.username ++ " has joined the room!")),
       Output.send d.uuid (MessageData.keyinit (roomKeys st d.room))] := by
  show (handleOpen st d).2 = _
  unfold handleOpen roomKeys
  cases hs : jsGet st.roomClientKeys d.room with
  | none => simp [hs, jsGet_jsSet_self]
  | some ks => simp [hs]

/-- C5: on every open, the joiner is subscribed to its room and
registered in the Connection Registry, the room receives the join
announcement, and the joiner receives a `keyinit` whose keys are exactly
the room's identifier→publicKey map at that moment (empty when absent);
moreover a key recorded for `u` before a stretch of events containing no
close of `u` is still in that map, so every key exchanged by a
still-connected member before the join is observed in the `keyinit`. -/
theorem C5_open_announces_and_keyinit (st0 : ServerState) (es : List Event)
    (d : WsData) (u k : String)
    (hrec : ∃ ks, jsGet st0.roomClientKeys d.room = some ks ∧ jsGet ks u = some k)
    (hnc : ∀ d', Event.wsClose d' ∈ es → d'.uuid ≠ u) :
    (d.uuid, d.room) ∈ (step (run st0 es) (Event.wsOpen d)).1.subscriptions ∧
    jsGet (step (run st0 es) (Event.wsOpen d)).1.sockets d.uuid = some d ∧
    (step (run st0 es) (Event.wsOpen d)).2 =
      [Output.publish d.room (MessageData.announcement (d.username ++ " has joined the room!")),
       Output.send d.uuid (MessageData.keyinit (roomKeys (run st0 es) d.room))] ∧
    jsGet (roomKeys (run st0 es) d.room) u = some k := by
  refine ⟨open_subscribes _ d, ?_, open_outputs _ d, ?_⟩
  · rw [open_state]
    exact jsGet_jsSet_self _ _ _
  · obtain ⟨ks, h1, h2⟩ := key_preserved_run st0 es d.room u k hnc hrec
    rw [roomKeys, h1]
    exact h2

/-- C5 witness: `a` exchanged "K1" in room "r"; after an unrelated event
`b` joins and its keyinit map still contains `a`'s key. -/
theorem C5_open_announces_and_keyinit_witness :
    (("b", "r") ∈ (step (run ⟨[("a", ⟨"a", "A", "r"⟩)], [("r", [("a", "K1")])], [("a", "r")]⟩
        [Event.wsOpen ⟨"c", "C", "r2"⟩]) (Event.wsOpen ⟨"b", "B", "r"⟩)).1.subscriptions) ∧
    jsGet (step (run ⟨[("a", ⟨"a", "A", "r"⟩)], [("r", [("a", "K1")])], [("a", "r")]⟩
        [Event.wsOpen ⟨"c", "C", "r2"⟩]) (Event.wsOpen ⟨"b", "B", "r"⟩)).1.sockets "b" =
      some ⟨"b", "B", "r"⟩ ∧
    (step (run ⟨[("a", ⟨"a", "A", "r"⟩)], [("r", [("a", "K1")])], [("a", "r")]⟩
        [Event.wsOpen ⟨"c", "C", "r2"⟩]) (Event.wsOpen ⟨"b", "B", "r"⟩)).2 =
      [Output.publish "r" (MessageData.announcement "B has joined the room!"),
       Output.send "b" (MessageData.keyinit (roomKeys (run
         ⟨[("a", ⟨"a", "A", "r"⟩)], [("r", [("a", "K1")])], [("a", "r")]⟩
         [Event.wsOpen ⟨"c", "C", "r2"⟩]) "r"))] ∧
    jsGet (roomKeys (run ⟨[("a", ⟨"a", "A", "r"⟩)], [("r", [("a", "K1")])], [("a", "r")]⟩
        [Event.wsOpen ⟨"c", "C", "r2"⟩]) "r") "a" = some "K1" :=
  C5_open_announces_and_keyinit
    ⟨[("a", ⟨"a", "A", "r"⟩)], [("r", [("a", "K1")])], [("a", "r")]⟩
    [Event.wsOpen ⟨"c", "C", "r2"⟩] ⟨"b", "B", "r"⟩ "a" "K1"
    ⟨[("a", "K1")], rfl, rfl⟩
    (fun d' hd' => by
      cases hd' with
      | tail _ h => exact absurd h (List.not_mem_nil _))

end WsChat
